import Mathlib

/-!
Verification of the `ps-mbuf` library: a buffer-with-header overlay type
`Mbuf<'lt, M, D>` consisting of a metadata field of type `M`, a `usize`
length field, and `length` elements of type `D` stored after the header at
the next address satisfying `D`'s alignment.

The development embeds the library shallowly:

* `align` is the library's alignment-rounding function, with the alignment
  passed as an explicit number (in Rust it is `align_of::<T>()`).
* A `Layout` records the size and alignment of the type parameters `M` and
  `D`; `usize` is modelled as 8 bytes aligned to 8 (a 64-bit host).  Field
  offsets and the struct size follow Rust's `repr(C)` rules, which the
  source type opts into.
* Memory is a function `Nat → Cell M D`, byte-granular: each byte either
  is undefined or holds byte `i` of a metadata value, of a length value,
  or of a data element.  Writing a value stamps its bytes over the range
  it occupies; reading succeeds only when every byte of the range belongs
  to one and the same stored value, so partial overwrites invalidate a
  stored value exactly as they do in real memory.
* Each library operation (`init_at_ptr`, `write_to_ptr`, `write_to_offset`,
  `set_metadata`, `len`, `is_empty`, the slice view) becomes a function on
  this memory model, performing the same writes at the same offsets as the
  Rust code.
-/

namespace PsMbuf

/-- Size and alignment of the two type parameters of `Mbuf<'lt, M, D>`:
`sizeM, alignM` for the metadata type `M` and `sizeD, alignD` for the data
element type `D` (in Rust these are `size_of` / `align_of`). -/
structure Layout where
  sizeM : Nat
  alignM : Nat
  sizeD : Nat
  alignD : Nat
deriving DecidableEq

/-- `k` is a power of two.  Every Rust type's alignment is one. -/
def Pow2 (k : Nat) : Prop := ∃ j, k = 2 ^ j

/-- A layout is well formed when both alignments are powers of two (as all
Rust alignments are) and both sizes are positive.  Positivity of the sizes
is a modelling assumption: the byte-granular memory needs at least one byte
to record a stored value, which excludes the degenerate zero-sized types
(those have at most one value, so every round-trip statement about them is
vacuous). -/
def Layout.WF (L : Layout) : Prop :=
  Pow2 L.alignM ∧ Pow2 L.alignD ∧ 0 < L.sizeM ∧ 0 < L.sizeD

/-- The library's alignment function (source `align<T>`): round `address`
up to the next multiple of `alignSize`.  The source computes
`address % align_size` and, when the remainder is nonzero, returns
`address + align_size - remainder`. -/
def align (address alignSize : Nat) : Nat :=
  let remainder := address % alignSize
  if remainder = 0 then address else address + alignSize - remainder

/-- The alignment computation exactly as the specification words it:
if `address mod align == 0`, return `address` unchanged; otherwise return
`address + (align - (address mod align))`. -/
def alignSpec (address alignSize : Nat) : Nat :=
  if address % alignSize = 0 then address
  else address + (alignSize - address % alignSize)

lemma pow2_pos {k : Nat} (h : Pow2 k) : 0 < k := by
  obtain ⟨j, rfl⟩ := h
  exact Nat.pos_pow_of_pos j (by norm_num)

lemma align_of_mod_eq_zero {a k : Nat} (hr : a % k = 0) : align a k = a := by
  simp [align, hr]

lemma align_of_mod_ne_zero {a k : Nat} (hr : a % k ≠ 0) :
    align a k = a + k - a % k := by
  simp [align, hr]

lemma align_le_self {a k : Nat} (h : 0 < k) : a ≤ align a k := by
  by_cases hr : a % k = 0
  · rw [align_of_mod_eq_zero hr]
  · rw [align_of_mod_ne_zero hr]
    have h1 : a % k < k := Nat.mod_lt a h
    omega

lemma align_mod {a k : Nat} (h : 0 < k) : align a k % k = 0 := by
  by_cases hr : a % k = 0
  · rw [align_of_mod_eq_zero hr]; exact hr
  · rw [align_of_mod_ne_zero hr]
    have h1 : a % k ≤ a := Nat.mod_le a k
    have h2 : a + k - a % k = a - a % k + k := by omega
    rw [h2, Nat.add_mod_right]
    exact Nat.dvd_iff_mod_eq_zero.mp (Nat.dvd_sub_mod a)

lemma align_sub_lt {a k : Nat} (h : 0 < k) : align a k - a < k := by
  by_cases hr : a % k = 0
  · rw [align_of_mod_eq_zero hr]
    simpa using h
  · rw [align_of_mod_ne_zero hr]
    have h1 : a % k < k := Nat.mod_lt a h
    have h2 : a % k ≤ a := Nat.mod_le a k
    have h3 : a + k - a % k - a = k - a % k := by omega
    rw [h3]
    exact Nat.sub_lt h (Nat.pos_of_ne_zero hr)

/-- Claim C4: for every address `a` and power-of-two alignment `k`, the
`align` function satisfies `align a k % k = 0`, `align a k - a < k`, and
`align a k ≥ a`. -/
theorem align_correct (a k j : Nat) (hk : k = 2 ^ j) :
    align a k % k = 0 ∧ align a k - a < k ∧ a ≤ align a k := by
  have h : 0 < k := pow2_pos ⟨j, hk⟩
  exact ⟨align_mod h, align_sub_lt h, align_le_self h⟩

/-- Witness for C4 at `a = 13`, `k = 8 = 2 ^ 3`. -/
theorem align_correct_witness :
    align 13 8 % 8 = 0 ∧ align 13 8 - 13 < 8 ∧ 13 ≤ align 13 8 :=
  align_correct 13 8 3 (by decide)

/-- Claim C5: `align` computes exactly the specification's formula —
the address unchanged when `address % align = 0`, otherwise
`address + (align - address % align)`; as a total function on naturals it
has no error condition. -/
theorem align_matches_spec (a k j : Nat) (hk : k = 2 ^ j) :
    align a k = alignSpec a k := by
  have h : 0 < k := pow2_pos ⟨j, hk⟩
  by_cases hr : a % k = 0
  · rw [align_of_mod_eq_zero hr, alignSpec, if_pos hr]
  · rw [align_of_mod_ne_zero hr, alignSpec, if_neg hr]
    have h1 : a % k < k := Nat.mod_lt a h
    omega

/-- Witness for C5 at `a = 13`, `k = 8 = 2 ^ 3`. -/
theorem align_matches_spec_witness : align 13 8 = alignSpec 13 8 :=
  align_matches_spec 13 8 3 (by decide)

/-- Claim C6: aligning an already-aligned address is a no-op —
`align (align a k) k = align a k` for every power-of-two `k`. -/
theorem align_idempotent (a k j : Nat) (hk : k = 2 ^ j) :
    align (align a k) k = align a k := by
  have h : 0 < k := pow2_pos ⟨j, hk⟩
  exact align_of_mod_eq_zero (align_mod h)

/-- Witness for C6 at `a = 13`, `k = 8 = 2 ^ 3`. -/
theorem align_idempotent_witness : align (align 13 8) 8 = align 13 8 :=
  align_idempotent 13 8 3 (by decide)

/-- Byte size of the `usize` length field (64-bit host). -/
def usizeBytes : Nat := 8

/-- `repr(C)` offset of the `length` field inside `Mbuf`: the metadata
occupies bytes `[0, sizeM)` and the `usize` field is placed at the next
multiple of its alignment, 8. -/
def offsetLength (L : Layout) : Nat := align L.sizeM usizeBytes

/-- `repr(C)` size of the `Mbuf` struct (`size_of::<Mbuf<M, D>>()`): the end
of the `length` field, rounded up to the struct's alignment
`max(align_of::<M>(), align_of::<usize>())`.  The `PhantomData` field is
zero-sized with alignment 1 and contributes nothing. -/
def sizeOfMbuf (L : Layout) : Nat :=
  align (offsetLength L + usizeBytes) (max L.alignM usizeBytes)

/-- The address of the data region for a record based at `base`, exactly as
the `Deref`/`DerefMut` implementations compute it: the struct's end address
`base + size_of::<Mbuf>()`, rounded up to `D`'s alignment. -/
def dataAddr (L : Layout) (base : Nat) : Nat :=
  align (base + sizeOfMbuf L) L.alignD

/-- The address immediately following the stored `length` field of a record
based at `base` — the "header end" in the specification's words. -/
def headerFieldsEnd (L : Layout) (base : Nat) : Nat :=
  base + offsetLength L + usizeBytes

/-- One byte of memory: either undefined, or byte `i` of a stored metadata
value `m`, of a stored length value `n`, or of a stored data element `d`. -/
inductive Cell (M D : Type) where
  | undef : Cell M D
  | mv (m : M) (i : Nat) : Cell M D
  | lv (n : Nat) (i : Nat) : Cell M D
  | dv (d : D) (i : Nat) : Cell M D
deriving DecidableEq

/-- Byte-granular memory. -/
def Mem (M D : Type) : Type := Nat → Cell M D

section Model

variable {M D : Type} [DecidableEq M] [DecidableEq D]

/-- The cells at addresses `a, a + 1, ..., a + n - 1`. -/
def bytesAt (mem : Mem M D) (a n : Nat) : List (Cell M D) :=
  (List.range n).map (fun i => mem (a + i))

/-- The cells a metadata value `m` occupies when stored. -/
def metaBytes (L : Layout) (m : M) : List (Cell M D) :=
  (List.range L.sizeM).map (fun i => Cell.mv m i)

/-- The cells a length value `n` occupies when stored. -/
def lenBytes (n : Nat) : List (Cell M D) :=
  (List.range usizeBytes).map (fun i => Cell.lv n i)

/-- The cells a data element `d` occupies when stored. -/
def elemBytes (L : Layout) (d : D) : List (Cell M D) :=
  (List.range L.sizeD).map (fun i => Cell.dv d i)

/-- Store a metadata value at address `a`: stamp its bytes over
`[a, a + sizeM)` (the assignment `mbuf.metadata = metadata`, and the write
performed by `set_metadata`). -/
def writeMeta (L : Layout) (mem : Mem M D) (a : Nat) (m : M) : Mem M D :=
  fun x => if a ≤ x ∧ x < a + L.sizeM then Cell.mv m (x - a) else mem x

/-- Store a length value at address `a` (the assignment
`mbuf.length = length`). -/
def writeLen (mem : Mem M D) (a : Nat) (n : Nat) : Mem M D :=
  fun x => if a ≤ x ∧ x < a + usizeBytes then Cell.lv n (x - a) else mem x

/-- Store one data element at address `a`. -/
def writeElem (L : Layout) (mem : Mem M D) (a : Nat) (d : D) : Mem M D :=
  fun x => if a ≤ x ∧ x < a + L.sizeD then Cell.dv d (x - a) else mem x

/-- Store a run of data elements starting at address `a`, each element
`sizeD` bytes after the previous (the element-wise effect of
`copy_from_slice` on the slice view). -/
def writeData (L : Layout) (mem : Mem M D) (a : Nat) : List D → Mem M D
  | [] => mem
  | d :: rest => writeData L (writeElem L mem a d) (a + L.sizeD) rest

/-- Read a metadata value at address `a`: succeeds exactly when every byte
of `[a, a + sizeM)` belongs to one stored metadata value. -/
def readMeta (L : Layout) (mem : Mem M D) (a : Nat) : Option M :=
  match mem a with
  | Cell.mv m _ => if bytesAt mem a L.sizeM = metaBytes L m then some m else none
  | _ => none

/-- Read a length value at address `a`. -/
def readLen (mem : Mem M D) (a : Nat) : Option Nat :=
  match mem a with
  | Cell.lv n _ => if bytesAt mem a usizeBytes = lenBytes n then some n else none
  | _ => none

/-- Read one data element at address `a`. -/
def readElem (L : Layout) (mem : Mem M D) (a : Nat) : Option D :=
  match mem a with
  | Cell.dv d _ => if bytesAt mem a L.sizeD = elemBytes L d then some d else none
  | _ => none

/-- Read a run of `n` data elements starting at address `a`. -/
def readData (L : Layout) (mem : Mem M D) (a : Nat) : Nat → Option (List D)
  | 0 => some []
  | n + 1 =>
    match readElem L mem a, readData L mem (a + L.sizeD) n with
    | some d, some ds => some (d :: ds)
    | _, _ => none

/-- Source `init_at_ptr`: write the metadata field, then the length field,
of a record based at `pointer`; the data region is not touched. -/
def init_at_ptr (L : Layout) (mem : Mem M D) (pointer : Nat) (metadata : M)
    (length : Nat) : Mem M D :=
  writeLen (writeMeta L mem pointer metadata) (pointer + offsetLength L) length

/-- Source `init_at_offset`: `init_at_ptr` at `pointer + offset`. -/
def init_at_offset (L : Layout) (mem : Mem M D) (pointer offset : Nat)
    (metadata : M) (length : Nat) : Mem M D :=
  init_at_ptr L mem (pointer + offset) metadata length

/-- Source `write_to_ptr` / `write_to_ptr_mut`: initialize the header with
`data.length` as the length, then copy the elements into the data region
through the slice view. -/
def write_to_ptr (L : Layout) (mem : Mem M D) (pointer : Nat) (metadata : M)
    (data : List D) : Mem M D :=
  writeData L (init_at_ptr L mem pointer metadata data.length)
    (dataAddr L pointer) data

/-- Source `write_to_offset` / `write_to_offset_mut`: `write_to_ptr` at
`pointer + offset`. -/
def write_to_offset (L : Layout) (mem : Mem M D) (pointer offset : Nat)
    (metadata : M) (data : List D) : Mem M D :=
  write_to_ptr L mem (pointer + offset) metadata data

/-- Source `get_metadata` on the record based at `base`: read the metadata
field. -/
def get_metadata (L : Layout) (mem : Mem M D) (base : Nat) : Option M :=
  readMeta L mem base

/-- Source `set_metadata` on the record based at `base`
(`mem::replace(&mut self.metadata, metadata)`): return the previously
stored metadata together with the memory in which the new metadata has
been written over it. -/
def set_metadata (L : Layout) (mem : Mem M D) (base : Nat) (metadata : M) :
    Option M × Mem M D :=
  (readMeta L mem base, writeMeta L mem base metadata)

/-- Source `len` on the record based at `base`: read the length field. -/
def len (L : Layout) (mem : Mem M D) (base : Nat) : Option Nat :=
  readLen mem (base + offsetLength L)

/-- Source `is_empty` on the record based at `base`: `self.len() == 0`. -/
def is_empty (L : Layout) (mem : Mem M D) (base : Nat) : Option Bool :=
  match len L mem base with
  | some n => some (n == 0)
  | none => none

/-- The slice view of the record based at `base` (source `Deref`,
`to_slice`, `as_slice`): `self.length` elements starting at the aligned
data address. -/
def to_slice (L : Layout) (mem : Mem M D) (base : Nat) : Option (List D) :=
  match len L mem base with
  | some n => readData L mem (dataAddr L base) n
  | none => none

/-- The full observable state of the record based at `base`: metadata,
length, and the slice view (what `at_ptr` exposes through `get_metadata`,
`len` and `Deref`). -/
def view (L : Layout) (mem : Mem M D) (base : Nat) :
    Option (M × Nat × List D) :=
  match get_metadata L mem base, len L mem base with
  | some m, some n =>
    match readData L mem (dataAddr L base) n with
    | some ds => some (m, n, ds)
    | none => none
  | _, _ => none

/-- The observable state at `pointer + offset` (source `at_offset`). -/
def view_at_offset (L : Layout) (mem : Mem M D) (pointer offset : Nat) :
    Option (M × Nat × List D) :=
  view L mem (pointer + offset)

end Model

section Lemmas

variable {M D : Type} [DecidableEq M] [DecidableEq D]

lemma offsetLength_ge (L : Layout) : L.sizeM ≤ offsetLength L :=
  align_le_self (by decide)

lemma sizeOfMbuf_ge (L : Layout) :
    offsetLength L + usizeBytes ≤ sizeOfMbuf L :=
  align_le_self (Nat.lt_of_lt_of_le (by decide) (le_max_right L.alignM usizeBytes))

lemma dataAddr_ge (L : Layout) (hL : L.WF) (base : Nat) :
    base + sizeOfMbuf L ≤ dataAddr L base :=
  align_le_self (pow2_pos hL.2.1)

lemma dataAddr_ge_headerFieldsEnd (L : Layout) (hL : L.WF) (base : Nat) :
    headerFieldsEnd L base ≤ dataAddr L base := by
  have h1 := sizeOfMbuf_ge L
  have h2 := dataAddr_ge L hL base
  unfold headerFieldsEnd
  omega

lemma writeMeta_out (L : Layout) (mem : Mem M D) (a : Nat) (m : M) {x : Nat}
    (h : ¬(a ≤ x ∧ x < a + L.sizeM)) : writeMeta L mem a m x = mem x :=
  if_neg h

lemma writeLen_out (mem : Mem M D) (a n : Nat) {x : Nat}
    (h : ¬(a ≤ x ∧ x < a + usizeBytes)) : writeLen mem a n x = mem x :=
  if_neg h

lemma writeElem_out (L : Layout) (mem : Mem M D) (a : Nat) (d : D) {x : Nat}
    (h : ¬(a ≤ x ∧ x < a + L.sizeD)) : writeElem L mem a d x = mem x :=
  if_neg h

lemma writeData_out (L : Layout) {mem : Mem M D} {a x : Nat}
    (ds : List D) (h : x < a) : writeData L mem a ds x = mem x := by
  induction ds generalizing mem a with
  | nil => rfl
  | cons d rest ih =>
    show writeData L (writeElem L mem a d) (a + L.sizeD) rest x = mem x
    rw [ih (by omega)]
    exact writeElem_out L mem a d (by omega)

lemma readMeta_writeMeta (L : Layout) (mem : Mem M D) (a : Nat) (m : M)
    (hs : 0 < L.sizeM) : readMeta L (writeMeta L mem a m) a = some m := by
  have ha : writeMeta L mem a m a = Cell.mv m 0 := by
    simp [writeMeta, hs]
  have hb : bytesAt (writeMeta L mem a m) a L.sizeM = metaBytes L m := by
    unfold bytesAt metaBytes
    refine List.map_congr_left ?_
    intro i hi
    have hi' : i < L.sizeM := List.mem_range.mp hi
    simp [writeMeta, hi']
  unfold readMeta
  rw [hb, ha]
  simp

lemma readLen_writeLen (mem : Mem M D) (a n : Nat) :
    readLen (writeLen mem a n) a = some n := by
  have ha : writeLen mem a n a = Cell.lv n 0 := by
    simp [writeLen, usizeBytes]
  have hb : bytesAt (writeLen mem a n) a usizeBytes = lenBytes n := by
    unfold bytesAt lenBytes
    refine List.map_congr_left ?_
    intro i hi
    have hi' : i < usizeBytes := List.mem_range.mp hi
    simp [writeLen, hi']
  unfold readLen
  rw [hb, ha]
  simp

lemma readElem_writeElem (L : Layout) (mem : Mem M D) (a : Nat) (d : D)
    (hs : 0 < L.sizeD) : readElem L (writeElem L mem a d) a = some d := by
  have ha : writeElem L mem a d a = Cell.dv d 0 := by
    simp [writeElem, hs]
  have hb : bytesAt (writeElem L mem a d) a L.sizeD = elemBytes L d := by
    unfold bytesAt elemBytes
    refine List.map_congr_left ?_
    intro i hi
    have hi' : i < L.sizeD := List.mem_range.mp hi
    simp [writeElem, hi']
  unfold readElem
  rw [hb, ha]
  simp

lemma readMeta_agree (L : Layout) (mem1 mem2 : Mem M D) (a : Nat)
    (hs : 0 < L.sizeM)
    (h : ∀ x, a ≤ x → x < a + L.sizeM → mem1 x = mem2 x) :
    readMeta L mem1 a = readMeta L mem2 a := by
  have ha : mem1 a = mem2 a := h a le_rfl (by omega)
  have hb : bytesAt mem1 a L.sizeM = bytesAt mem2 a L.sizeM := by
    unfold bytesAt
    refine List.map_congr_left ?_
    intro i hi
    exact h (a + i) (Nat.le_add_right _ _)
      (by have := List.mem_range.mp hi; omega)
  unfold readMeta
  rw [ha, hb]

lemma readLen_agree (mem1 mem2 : Mem M D) (a : Nat)
    (h : ∀ x, a ≤ x → x < a + usizeBytes → mem1 x = mem2 x) :
    readLen mem1 a = readLen mem2 a := by
  have ha : mem1 a = mem2 a := h a le_rfl (by unfold usizeBytes; omega)
  have hb : bytesAt mem1 a usizeBytes = bytesAt mem2 a usizeBytes := by
    unfold bytesAt
    refine List.map_congr_left ?_
    intro i hi
    exact h (a + i) (Nat.le_add_right _ _)
      (by have := List.mem_range.mp hi; omega)
  unfold readLen
  rw [ha, hb]

lemma readElem_agree (L : Layout) (mem1 mem2 : Mem M D) (a : Nat)
    (hs : 0 < L.sizeD)
    (h : ∀ x, a ≤ x → x < a + L.sizeD → mem1 x = mem2 x) :
    readElem L mem1 a = readElem L mem2 a := by
  have ha : mem1 a = mem2 a := h a le_rfl (by omega)
  have hb : bytesAt mem1 a L.sizeD = bytesAt mem2 a L.sizeD := by
    unfold bytesAt
    refine List.map_congr_left ?_
    intro i hi
    exact h (a + i) (Nat.le_add_right _ _)
      (by have := List.mem_range.mp hi; omega)
  unfold readElem
  rw [ha, hb]

lemma readData_agree (L : Layout) (mem1 mem2 : Mem M D) (c : Nat)
    (hs : 0 < L.sizeD) (h : ∀ x, c ≤ x → mem1 x = mem2 x) :
    ∀ (n : Nat) (a : Nat), c ≤ a →
      readData L mem1 a n = readData L mem2 a n := by
  intro n
  induction n with
  | zero => intro a _; rfl
  | succ k ih =>
    intro a hca
    unfold readData
    rw [readElem_agree L mem1 mem2 a hs (fun x hx1 _ => h x (le_trans hca hx1)),
      ih (a + L.sizeD) (by omega)]

lemma readData_writeData (L : Layout) (hs : 0 < L.sizeD) :
    ∀ (ds : List D) (mem : Mem M D) (a : Nat),
      readData L (writeData L mem a ds) a ds.length = some ds := by
  intro ds
  induction ds with
  | nil => intro mem a; rfl
  | cons d rest ih =>
    intro mem a
    show readData L (writeData L (writeElem L mem a d) (a + L.sizeD) rest) a
      (rest.length + 1) = some (d :: rest)
    unfold readData
    have h1 : readElem L
        (writeData L (writeElem L mem a d) (a + L.sizeD) rest) a = some d := by
      rw [readElem_agree L
        (writeData L (writeElem L mem a d) (a + L.sizeD) rest)
        (writeElem L mem a d) a hs
        (fun x _ hx2 => writeData_out L rest (by omega))]
      exact readElem_writeElem L mem a d hs
    rw [h1, ih (writeElem L mem a d) (a + L.sizeD)]

lemma get_metadata_write_to_ptr (L : Layout) (hL : L.WF) (mem : Mem M D)
    (base : Nat) (m : M) (ds : List D) :
    get_metadata L (write_to_ptr L mem base m ds) base = some m := by
  have hsM := hL.2.2.1
  have h1 := offsetLength_ge L
  have h2 := sizeOfMbuf_ge L
  have h3 := dataAddr_ge L hL base
  unfold get_metadata write_to_ptr init_at_ptr
  have e1 := readMeta_agree L
    (writeData L (writeLen (writeMeta L mem base m)
      (base + offsetLength L) ds.length) (dataAddr L base) ds)
    (writeLen (writeMeta L mem base m) (base + offsetLength L) ds.length)
    base hsM
    (fun x hx1 hx2 => writeData_out L ds (by omega))
  have e2 := readMeta_agree L
    (writeLen (writeMeta L mem base m) (base + offsetLength L) ds.length)
    (writeMeta L mem base m)
    base hsM
    (fun x hx1 hx2 => writeLen_out _ _ _ (by omega))
  rw [e1, e2]
  exact readMeta_writeMeta L mem base m hsM

lemma len_write_to_ptr (L : Layout) (hL : L.WF) (mem : Mem M D)
    (base : Nat) (m : M) (ds : List D) :
    len L (write_to_ptr L mem base m ds) base = some ds.length := by
  have h2 := sizeOfMbuf_ge L
  have h3 := dataAddr_ge L hL base
  unfold len write_to_ptr init_at_ptr
  have e1 := readLen_agree
    (writeData L (writeLen (writeMeta L mem base m)
      (base + offsetLength L) ds.length) (dataAddr L base) ds)
    (writeLen (writeMeta L mem base m) (base + offsetLength L) ds.length)
    (base + offsetLength L)
    (fun x hx1 hx2 => writeData_out L ds (by omega))
  rw [e1]
  exact readLen_writeLen _ _ _

lemma readData_write_to_ptr (L : Layout) (hL : L.WF) (mem : Mem M D)
    (base : Nat) (m : M) (ds : List D) :
    readData L (write_to_ptr L mem base m ds) (dataAddr L base) ds.length
      = some ds := by
  unfold write_to_ptr
  exact readData_writeData L hL.2.2.2 ds _ _

lemma to_slice_write_to_ptr (L : Layout) (hL : L.WF) (mem : Mem M D)
    (base : Nat) (m : M) (ds : List D) :
    to_slice L (write_to_ptr L mem base m ds) base = some ds := by
  simp only [to_slice, len_write_to_ptr L hL mem base m ds,
    readData_write_to_ptr L hL mem base m ds]

lemma view_write_to_ptr (L : Layout) (hL : L.WF) (mem : Mem M D)
    (base : Nat) (m : M) (ds : List D) :
    view L (write_to_ptr L mem base m ds) base = some (m, ds.length, ds) := by
  simp only [view, get_metadata_write_to_ptr L hL mem base m ds,
    len_write_to_ptr L hL mem base m ds,
    readData_write_to_ptr L hL mem base m ds]

end Lemmas

/-- The all-undefined memory, used to build concrete instances. -/
def undefMem (M D : Type) : Mem M D := fun _ => Cell.undef

lemma wf1111 : Layout.WF ⟨1, 1, 1, 1⟩ :=
  ⟨⟨0, rfl⟩, ⟨0, rfl⟩, by decide, by decide⟩

lemma wf4488 : Layout.WF ⟨4, 4, 8, 8⟩ :=
  ⟨⟨2, rfl⟩, ⟨3, rfl⟩, by decide, by decide⟩

section Claims

variable {M D : Type} [DecidableEq M] [DecidableEq D]

/-- Claim C1, counterexample: take a metadata type of size and alignment 16
(for example `#[repr(align(16))] struct X([u8; 16])` or `u128`) and a data
type of size and alignment 1.  The end of the stored length field is at
offset `align(16, 8) + 8 = 24`, so the claimed data address is
`align(0 + 24, 1) = 24`; the code instead starts the data at
`align(0 + size_of::<Mbuf>(), 1) = align(32, 1) = 32`, because
`size_of::<Mbuf>()` rounds 24 up to the struct alignment 16. -/
theorem data_offset_claim_counterexample :
    Layout.WF ⟨16, 16, 1, 1⟩ ∧
    dataAddr ⟨16, 16, 1, 1⟩ 0 ≠ align (headerFieldsEnd ⟨16, 16, 1, 1⟩ 0) 1 :=
  ⟨⟨⟨4, rfl⟩, ⟨0, rfl⟩, by decide, by decide⟩, by decide⟩

/-- Claim C1, amended: the data address produced by the slice views equals
`align(base + size_of::<Mbuf<M, D>>(), align_of::<D>())`, where the struct
size rounds the end of the length field up to the struct's own alignment
`max(align_of::<M>(), align_of::<usize>())` (this coincides with the
address immediately after the length field whenever
`align_of::<M>() ≤ align_of::<usize>()`); the computed data start is a
multiple of `D`'s alignment and is at or after the end of the header, so
the data region never overlaps the header. -/
theorem data_offset_derivation (L : Layout) (hL : L.WF) (base : Nat) :
    dataAddr L base
      = align (base + align (align L.sizeM usizeBytes + usizeBytes)
          (max L.alignM usizeBytes)) L.alignD ∧
    dataAddr L base % L.alignD = 0 ∧
    headerFieldsEnd L base ≤ dataAddr L base ∧
    base + sizeOfMbuf L ≤ dataAddr L base :=
  ⟨rfl, align_mod (pow2_pos hL.2.1), dataAddr_ge_headerFieldsEnd L hL base,
    dataAddr_ge L hL base⟩

/-- Witness for C1 (amended) at the layout of `M = u32`, `D = u64`,
base address 0. -/
theorem data_offset_derivation_witness :
    Layout.WF ⟨4, 4, 8, 8⟩ ∧
    dataAddr ⟨4, 4, 8, 8⟩ 0 % 8 = 0 ∧
    headerFieldsEnd ⟨4, 4, 8, 8⟩ 0 ≤ dataAddr ⟨4, 4, 8, 8⟩ 0 :=
  ⟨wf4488, (data_offset_derivation ⟨4, 4, 8, 8⟩ wf4488 0).2.1,
    (data_offset_derivation ⟨4, 4, 8, 8⟩ wf4488 0).2.2.1⟩

/-- Claim C2: writing metadata `m` and data `ds` with `write_to_ptr` and
then viewing the same region yields metadata `m`, length `ds.length`, and
the data `ds` element for element. -/
theorem write_round_trip (L : Layout) (hL : L.WF) (mem : Mem M D)
    (base : Nat) (m : M) (ds : List D) :
    view L (write_to_ptr L mem base m ds) base = some (m, ds.length, ds) ∧
    get_metadata L (write_to_ptr L mem base m ds) base = some m ∧
    len L (write_to_ptr L mem base m ds) base = some ds.length ∧
    to_slice L (write_to_ptr L mem base m ds) base = some ds :=
  ⟨view_write_to_ptr L hL mem base m ds,
    get_metadata_write_to_ptr L hL mem base m ds,
    len_write_to_ptr L hL mem base m ds,
    to_slice_write_to_ptr L hL mem base m ds⟩

/-- Witness for C2: the specification's concrete scenario — `M = u32`,
`D = u64`, metadata `7`, data `[100, 200]`. -/
theorem write_round_trip_witness :
    Layout.WF ⟨4, 4, 8, 8⟩ ∧
    view ⟨4, 4, 8, 8⟩
      (write_to_ptr ⟨4, 4, 8, 8⟩ (undefMem Nat Nat) 0 7 [100, 200]) 0
      = some (7, 2, [100, 200]) :=
  ⟨wf4488,
    (write_round_trip ⟨4, 4, 8, 8⟩ wf4488 (undefMem Nat Nat) 0 7
      [100, 200]).1⟩

/-- Claim C3: writing at `base + offset` through `write_to_offset` and
viewing through `view_at_offset` gives exactly the observable state of
`write_to_ptr` and `view` at the address `base + offset` — and that state
is the written record. -/
theorem offset_equivalence (L : Layout) (hL : L.WF) (mem : Mem M D)
    (base offset : Nat) (m : M) (ds : List D) :
    view_at_offset L (write_to_offset L mem base offset m ds) base offset
      = view L (write_to_ptr L mem (base + offset) m ds) (base + offset) ∧
    view_at_offset L (write_to_offset L mem base offset m ds) base offset
      = some (m, ds.length, ds) :=
  ⟨rfl, view_write_to_ptr L hL mem (base + offset) m ds⟩

/-- Witness for C3 at base 0, offset 16, metadata 7, data `[100, 200]`. -/
theorem offset_equivalence_witness :
    Layout.WF ⟨4, 4, 8, 8⟩ ∧
    view_at_offset ⟨4, 4, 8, 8⟩
        (write_to_offset ⟨4, 4, 8, 8⟩ (undefMem Nat Nat) 0 16 7 [100, 200])
        0 16
      = view ⟨4, 4, 8, 8⟩
          (write_to_ptr ⟨4, 4, 8, 8⟩ (undefMem Nat Nat) (0 + 16) 7 [100, 200])
          (0 + 16) ∧
    view_at_offset ⟨4, 4, 8, 8⟩
        (write_to_offset ⟨4, 4, 8, 8⟩ (undefMem Nat Nat) 0 16 7 [100, 200])
        0 16
      = some (7, 2, [100, 200]) :=
  ⟨wf4488,
    (offset_equivalence ⟨4, 4, 8, 8⟩ wf4488 (undefMem Nat Nat) 0 16 7
      [100, 200]).1,
    (offset_equivalence ⟨4, 4, 8, 8⟩ wf4488 (undefMem Nat Nat) 0 16 7
      [100, 200]).2⟩

/-- Claim C7: `set_metadata` returns the previously stored metadata and
leaves the new value readable; a second call returns the value passed to
the first call. -/
theorem set_metadata_replaces (L : Layout) (hL : L.WF) (mem : Mem M D)
    (base : Nat) (m0 m1 m2 : M)
    (h : get_metadata L mem base = some m0) :
    (set_metadata L mem base m1).1 = some m0 ∧
    get_metadata L (set_metadata L mem base m1).2 base = some m1 ∧
    (set_metadata L (set_metadata L mem base m1).2 base m2).1 = some m1 :=
  ⟨h, readMeta_writeMeta L mem base m1 hL.2.2.1,
    readMeta_writeMeta L mem base m1 hL.2.2.1⟩

/-- Witness for C7 on a one-byte layout with metadata 5 replaced by 6 and
then by 9. -/
theorem set_metadata_replaces_witness :
    Layout.WF ⟨1, 1, 1, 1⟩ ∧
    get_metadata ⟨1, 1, 1, 1⟩
      (writeMeta ⟨1, 1, 1, 1⟩ (undefMem Nat Nat) 0 5) 0 = some 5 ∧
    (set_metadata ⟨1, 1, 1, 1⟩
      (writeMeta ⟨1, 1, 1, 1⟩ (undefMem Nat Nat) 0 5) 0 6).1 = some 5 ∧
    get_metadata ⟨1, 1, 1, 1⟩
      (set_metadata ⟨1, 1, 1, 1⟩
        (writeMeta ⟨1, 1, 1, 1⟩ (undefMem Nat Nat) 0 5) 0 6).2 0 = some 6 ∧
    (set_metadata ⟨1, 1, 1, 1⟩
      (set_metadata ⟨1, 1, 1, 1⟩
        (writeMeta ⟨1, 1, 1, 1⟩ (undefMem Nat Nat) 0 5) 0 6).2 0 9).1
      = some 6 :=
  ⟨wf1111, by decide,
    (set_metadata_replaces ⟨1, 1, 1, 1⟩ wf1111
      (writeMeta ⟨1, 1, 1, 1⟩ (undefMem Nat Nat) 0 5) 0 5 6 9 (by decide)).1,
    (set_metadata_replaces ⟨1, 1, 1, 1⟩ wf1111
      (writeMeta ⟨1, 1, 1, 1⟩ (undefMem Nat Nat) 0 5) 0 5 6 9
      (by decide)).2.1,
    (set_metadata_replaces ⟨1, 1, 1, 1⟩ wf1111
      (writeMeta ⟨1, 1, 1, 1⟩ (undefMem Nat Nat) 0 5) 0 5 6 9
      (by decide)).2.2⟩

/-- Claim C8: `init_at_ptr` makes the header fields hold the given values,
modifies no byte outside the metadata and length field ranges, and in
particular leaves every byte of the data region unchanged. -/
theorem init_writes_header_only (L : Layout) (hL : L.WF) (mem : Mem M D)
    (base : Nat) (m : M) (n : Nat) :
    get_metadata L (init_at_ptr L mem base m n) base = some m ∧
    len L (init_at_ptr L mem base m n) base = some n ∧
    (∀ x, ¬(base ≤ x ∧ x < base + L.sizeM) →
      ¬(base + offsetLength L ≤ x ∧ x < base + offsetLength L + usizeBytes) →
      init_at_ptr L mem base m n x = mem x) ∧
    (∀ x, dataAddr L base ≤ x → init_at_ptr L mem base m n x = mem x) := by
  have hsM := hL.2.2.1
  have h1 := offsetLength_ge L
  have h2 := sizeOfMbuf_ge L
  have h3 := dataAddr_ge L hL base
  refine ⟨?_, ?_, ?_, ?_⟩
  · unfold get_metadata init_at_ptr
    have e := readMeta_agree L
      (writeLen (writeMeta L mem base m) (base + offsetLength L) n)
      (writeMeta L mem base m)
      base hsM
      (fun x hx1 hx2 => writeLen_out _ _ _ (by omega))
    rw [e]
    exact readMeta_writeMeta L mem base m hsM
  · unfold len init_at_ptr
    exact readLen_writeLen _ _ _
  · intro x hx1 hx2
    unfold init_at_ptr
    rw [writeLen_out _ _ _ hx2]
    exact writeMeta_out L mem base m hx1
  · intro x hx
    unfold init_at_ptr
    rw [writeLen_out _ _ _ (by omega)]
    exact writeMeta_out L mem base m (by omega)

/-- Witness for C8 on a one-byte layout, metadata 5, length 3. -/
theorem init_writes_header_only_witness :
    Layout.WF ⟨1, 1, 1, 1⟩ ∧
    get_metadata ⟨1, 1, 1, 1⟩
      (init_at_ptr ⟨1, 1, 1, 1⟩ (undefMem Nat Nat) 0 5 3) 0 = some 5 ∧
    len ⟨1, 1, 1, 1⟩
      (init_at_ptr ⟨1, 1, 1, 1⟩ (undefMem Nat Nat) 0 5 3) 0 = some 3 :=
  ⟨wf1111,
    (init_writes_header_only ⟨1, 1, 1, 1⟩ wf1111 (undefMem Nat Nat) 0 5 3).1,
    (init_writes_header_only ⟨1, 1, 1, 1⟩ wf1111
      (undefMem Nat Nat) 0 5 3).2.1⟩

/-- Claim C9: `is_empty` is true exactly when the stored length is zero,
and a record written with the empty data slice has length 0, `is_empty`
true, and the empty slice view. -/
theorem emptiness (L : Layout) (hL : L.WF) (mem : Mem M D) (base : Nat)
    (m : M) :
    (∀ n, len L mem base = some n →
      (is_empty L mem base = some true ↔ n = 0)) ∧
    len L (write_to_ptr L mem base m []) base = some 0 ∧
    is_empty L (write_to_ptr L mem base m []) base = some true ∧
    to_slice L (write_to_ptr L mem base m []) base = some [] := by
  have hlen := len_write_to_ptr L hL mem base m []
  refine ⟨?_, hlen, ?_, to_slice_write_to_ptr L hL mem base m []⟩
  · intro n hn
    unfold is_empty
    rw [hn]
    simp
  · unfold is_empty
    rw [hlen]
    rfl

/-- Witness for C9 on a one-byte layout, metadata 5, empty data. -/
theorem emptiness_witness :
    Layout.WF ⟨1, 1, 1, 1⟩ ∧
    len ⟨1, 1, 1, 1⟩
      (write_to_ptr ⟨1, 1, 1, 1⟩ (undefMem Nat Nat) 0 5 []) 0 = some 0 ∧
    is_empty ⟨1, 1, 1, 1⟩
      (write_to_ptr ⟨1, 1, 1, 1⟩ (undefMem Nat Nat) 0 5 []) 0 = some true ∧
    to_slice ⟨1, 1, 1, 1⟩
      (write_to_ptr ⟨1, 1, 1, 1⟩ (undefMem Nat Nat) 0 5 []) 0 = some [] :=
  ⟨wf1111,
    (emptiness ⟨1, 1, 1, 1⟩ wf1111 (undefMem Nat Nat) 0 5).2.1,
    (emptiness ⟨1, 1, 1, 1⟩ wf1111 (undefMem Nat Nat) 0 5).2.2.1,
    (emptiness ⟨1, 1, 1, 1⟩ wf1111 (undefMem Nat Nat) 0 5).2.2.2⟩

/-- Claim C10: `set_metadata` changes only the metadata field — the stored
length, the whole slice view, and every byte outside the metadata range are
unchanged. -/
theorem set_metadata_frame (L : Layout) (hL : L.WF) (mem : Mem M D)
    (base : Nat) (m : M) :
    len L (set_metadata L mem base m).2 base = len L mem base ∧
    to_slice L (set_metadata L mem base m).2 base = to_slice L mem base ∧
    (∀ x, ¬(base ≤ x ∧ x < base + L.sizeM) →
      (set_metadata L mem base m).2 x = mem x) := by
  have hsD := hL.2.2.2
  have h1 := offsetLength_ge L
  have h2 := sizeOfMbuf_ge L
  have h3 := dataAddr_ge L hL base
  have hlen : len L (set_metadata L mem base m).2 base = len L mem base := by
    unfold len set_metadata
    exact readLen_agree (writeMeta L mem base m) mem (base + offsetLength L)
      (fun x hx1 hx2 => writeMeta_out L mem base m (by omega))
  refine ⟨hlen, ?_, fun x hx => writeMeta_out L mem base m hx⟩
  unfold to_slice
  rw [hlen]
  cases hcase : len L mem base with
  | none => rfl
  | some n =>
    have e := readData_agree L
      (set_metadata L mem base m).2 mem (dataAddr L base) hsD
      (fun x hx => writeMeta_out L mem base m (by omega))
      n (dataAddr L base) le_rfl
    simpa using e

/-- Witness for C10: replacing the metadata of a written record leaves its
length and slice view intact. -/
theorem set_metadata_frame_witness :
    Layout.WF ⟨1, 1, 1, 1⟩ ∧
    len ⟨1, 1, 1, 1⟩
        (set_metadata ⟨1, 1, 1, 1⟩
          (write_to_ptr ⟨1, 1, 1, 1⟩ (undefMem Nat Nat) 0 5 [9]) 0 6).2 0
      = len ⟨1, 1, 1, 1⟩
          (write_to_ptr ⟨1, 1, 1, 1⟩ (undefMem Nat Nat) 0 5 [9]) 0 ∧
    to_slice ⟨1, 1, 1, 1⟩
        (set_metadata ⟨1, 1, 1, 1⟩
          (write_to_ptr ⟨1, 1, 1, 1⟩ (undefMem Nat Nat) 0 5 [9]) 0 6).2 0
      = to_slice ⟨1, 1, 1, 1⟩
          (write_to_ptr ⟨1, 1, 1, 1⟩ (undefMem Nat Nat) 0 5 [9]) 0 :=
  ⟨wf1111,
    (set_metadata_frame ⟨1, 1, 1, 1⟩ wf1111
      (write_to_ptr ⟨1, 1, 1, 1⟩ (undefMem Nat Nat) 0 5 [9]) 0 6).1,
    (set_metadata_frame ⟨1, 1, 1, 1⟩ wf1111
      (write_to_ptr ⟨1, 1, 1, 1⟩ (undefMem Nat Nat) 0 5 [9]) 0 6).2.1⟩

end Claims

end PsMbuf
